import Mathlib

/-!
Verification of the ML_Export_Wizard query-composition engine
(`ml_export_wizard/utils/exporter.py`) against its specification.

The Python source is shallowly embedded: dictionaries become structures or
association lists, `None`-able values become `Option`, raised exceptions
become `Except PyErr`, and Python truthiness is made explicit.  Each
definition is translated from the named source function.
-/

/-- The exceptions that the exporter code can raise, plus the builtin Python
errors it actually raises (`KeyError` from plain dict indexing,
`ValueError`, `ImproperlyConfigured`). `fieldNotFound`, `exporterNotFound`,
`queryExecuting`, `queryNotExecuted` model the classes in
`ml_export_wizard/exceptions.py`. -/
inductive PyErr where
  | fieldNotFound
  | exporterNotFound
  | queryExecuting
  | queryNotExecuted
  | keyError
  | valueError
  | improperlyConfigured
deriving DecidableEq, Repr

/-- Python truthiness of an optional string argument: `None` and `""` are
falsy, every other string is truthy. -/
def pyTruthyS : Option String → Bool
  | none => false
  | some s => s != ""

/-- Python values that can appear as a literal / filter value in the
exporter's declarations (`str | int | None`; floats are not modelled). -/
inductive PyVal where
  | vNone
  | vStr (s : String)
  | vInt (n : Int)
deriving DecidableEq, Repr

/-- Python truthiness of a `PyVal`: `None`, `""` and `0` are falsy. -/
def pyTruthyVal : PyVal → Bool
  | .vNone => false
  | .vStr s => s != ""
  | .vInt n => n != 0

/-! ## SQL fragment dictionaries and `merge_sql_dicts` -/

/-- The SQL fragment dictionary built by the compiler.  A field holds `none`
when the corresponding key is absent from the Python dict and `some v` when
the key is present with value `v`.  `fromCl`/`whereCl` stand for the dict
keys `"from"`/`"where"` (reserved words in Lean). -/
structure SqlDict where
  select : Option String := none
  select_no_table : Option String := none
  fromCl : Option String := none
  whereCl : Option String := none
  group_by : Option String := none
  having : Option String := none
  parameters : Option (List (String × String)) := none
deriving DecidableEq, Repr

/-- `value.join(filter(None, (v1, v2)))` from `merge_sql_dicts`: join the
non-empty strings among the two with the separator. -/
def joinFiltered (sep v1 v2 : String) : String :=
  if v1 = "" then v2 else if v2 = "" then v1 else v1 ++ sep ++ v2

/-- One clause of the `for key, value in mergers.items()` loop of
`merge_sql_dicts`: absent from both dicts gives `""`, present in one gives
that value, present in both gives the filtered join. -/
def mergeClausePair (sep : String) : Option String → Option String → String
  | none, none => ""
  | some v, none => v
  | none, some v => v
  | some v1, some v2 => joinFiltered sep v1 v2

/-- Python `d1 | d2` on dicts (as association lists): the keys of `d1` keep
their position but take `d2`'s value when `d2` also binds them; keys only in
`d2` are appended in `d2`'s order. -/
def pyDictUnion (d1 d2 : List (String × String)) : List (String × String) :=
  d1.map (fun p =>
    match d2.find? (fun q => q.1 == p.1) with
    | some q => (p.1, q.2)
    | none => p)
  ++ d2.filter (fun q => !(d1.any (fun p => p.1 == q.1)))

/-- `merge_sql_dicts` (exporter.py lines 1085-1125), translated clause by
clause. -/
def merge_sql_dicts : Option SqlDict → Option SqlDict → Option SqlDict
  | none, none => none
  | some d1, none => some d1
  | none, some d2 => some d2
  | some d1, some d2 => some
    { select := some (mergeClausePair ", " d1.select d2.select)
      select_no_table := some (mergeClausePair ", " d1.select_no_table d2.select_no_table)
      fromCl := some (mergeClausePair " " d1.fromCl d2.fromCl)
      whereCl := some (mergeClausePair " AND " d1.whereCl d2.whereCl)
      group_by := some (mergeClausePair ", " d1.group_by d2.group_by)
      having := some (mergeClausePair " AND " d1.having d2.having)
      parameters := some
        (match d1.parameters, d2.parameters with
         | none, none => []
         | some p, none => p
         | none, some p => p
         | some p1, some p2 => pyDictUnion p1 p2) }

/-- Specification-side join: the non-empty values among a list, joined by a
separator (used to state what a merged clause must equal). -/
def sepJoin (sep : String) : List String → String
  | [] => ""
  | [v] => v
  | v :: vs => v ++ sep ++ sepJoin sep vs

/-- The values an optional clause contributes (absent contributes nothing). -/
def optVals : Option String → List String
  | none => []
  | some v => [v]

/-- Specification of one merged clause: the two operands' non-empty values
joined with the clause's separator. -/
def clauseSpec (sep : String) (x y : Option String) : String :=
  sepJoin sep ((optVals x ++ optVals y).filter (fun v => v != ""))

/-- Lookup in an (optional) parameter map; an absent map binds nothing. -/
def paramGet (o : Option (List (String × String))) (k : String) : Option String :=
  ((o.getD []).find? (fun p => p.1 == k)).map (fun p => p.2)

/-! ## Fields and `column(query_layer)` -/

/-- `ExporterField`: a field backed by a physical column.  `columnName` is
the physical column name taken from the Django field descriptor
(`self.field.column`, falling back to `self.field.field_name`);
`parentTable` is `self.parent.table`. -/
structure ExporterField where
  name : String
  columnName : String
  parentTable : String
deriving DecidableEq, Repr

/-- `ExporterField.column` (exporter.py lines 985-1004): render the DB
column reference for the requested query layer. -/
def ExporterField.column (f : ExporterField) (query_layer : Option String) : String :=
  let column := f.columnName
  if query_layer = some "base" then f.parentTable ++ "." ++ column
  else if query_layer = some "inner" then column ++ " AS " ++ f.parentTable ++ "_" ++ column
  else if query_layer = some "middle" then f.parentTable ++ "_" ++ column
  else if query_layer = some "outer" then f.parentTable ++ "_" ++ column ++ " as " ++ column
  else column

/-- `ExporterPseudofield`: a name-only field. -/
structure ExporterPseudofield where
  name : String
deriving DecidableEq, Repr

/-- `ExporterPseudofield.column`: always the pseudofield's own name,
whatever the layer. -/
def ExporterPseudofield.column (p : ExporterPseudofield) (_query_layer : Option String) : String :=
  p.name

/-- A field object as returned by `find_field`: either a real field or a
pseudofield. -/
inductive FieldObj where
  | field (f : ExporterField)
  | pseudo (p : ExporterPseudofield)
deriving DecidableEq, Repr

/-- The `name` attribute of either kind of field object. -/
def FieldObj.name : FieldObj → String
  | .field f => f.name
  | .pseudo p => p.name

/-- `column(query_layer=...)` dispatched on the kind of field object. -/
def FieldObj.column : FieldObj → Option String → String
  | .field f, ql => f.column ql
  | .pseudo p, ql => p.column ql

/-! ## The exporter object graph and `find_field` -/

/-- `ExporterModel`, projected to what field lookup needs: its name and its
ordered fields (`fields_by_name` is derived, last assignment wins as in a
Python dict). -/
structure ExporterModel where
  name : String
  fields : List FieldObj
deriving DecidableEq, Repr

/-- `ExporterApp`: a named group of models. -/
structure ExporterApp where
  name : String
  models : List ExporterModel
deriving DecidableEq, Repr

/-- `ExporterRollup`, projected to field lookup: its name and fields. -/
structure ExporterRollup where
  name : String
  fields : List FieldObj
deriving DecidableEq, Repr

/-- `Exporter`: its own pseudofields (`self.fields` / `fields_by_name`),
its apps and its rollups. -/
structure Exporter where
  name : String
  fields : List FieldObj
  apps : List ExporterApp
  rollups : List ExporterRollup
deriving DecidableEq, Repr

/-- Lookup in a `*_by_name` dict built by successive
`d[obj.name] = obj` assignments: the last assignment wins. -/
def fieldsByName (fs : List FieldObj) (n : String) : Option FieldObj :=
  fs.reverse.find? (fun f => f.name == n)

/-- `models_by_name` lookup of an app. -/
def modelsByName (a : ExporterApp) (n : String) : Option ExporterModel :=
  a.models.reverse.find? (fun m => m.name == n)

/-- `apps_by_name` lookup of an exporter. -/
def appsByName (e : Exporter) (n : String) : Option ExporterApp :=
  e.apps.reverse.find? (fun a => a.name == n)

/-- `ExporterApp._get_field` (lines 789-797): collect the field from every
model of the app whose `fields_by_name` contains the name. -/
def app_get_field (a : ExporterApp) (n : String) : List FieldObj :=
  a.models.foldl (fun acc m =>
    match fieldsByName m.fields n with
    | some fo => acc ++ [fo]
    | none => acc) []

/-- `ExporterRollup._get_field` (lines 962-969). -/
def rollup_get_field (r : ExporterRollup) (n : String) : List FieldObj :=
  match fieldsByName r.fields n with
  | some fo => [fo]
  | none => []

/-- Split a character list on `.` (Python `field.split(".")`). -/
def splitDots : List Char → List Char → List (List Char)
  | [], cur => [cur.reverse]
  | c :: rest, cur =>
    if c = '.' then cur.reverse :: splitDots rest [] else splitDots rest (c :: cur)

/-- The unqualified candidate list of `Exporter.find_field`: the exporter's
own `fields_by_name`, then every app's models, then every rollup. -/
def findFieldMatches (e : Exporter) (n : String) : List FieldObj :=
  (match fieldsByName e.fields n with
   | some fo => [fo]
   | none => [])
  ++ e.apps.foldl (fun acc a => acc ++ app_get_field a n) []
  ++ e.rollups.foldl (fun acc r => acc ++ rollup_get_field r n) []

/-- `Exporter.find_field` (exporter.py lines 227-263).  A name in
`app.model.field` form (exactly two dots) with no app/model given is first
split into the three segments; a fully qualified lookup chains the three
`*_by_name` dicts and any `KeyError` becomes `FieldNotFound`; an
unqualified name is matched against pseudofields, app models and rollups
and must match exactly once.  `promoteDotted` is the opening
`if field and not app and not model and field.count(".") == 2` split. -/
def promoteDotted (app model field : Option String) :
    Option String × Option String × Option String :=
  match field with
  | some f =>
    if pyTruthyS (some f) && !pyTruthyS app && !pyTruthyS model then
      match splitDots f.data [] with
      | [x, y, z] => (some (String.mk x), some (String.mk y), some (String.mk z))
      | _ => (app, model, field)
    else (app, model, field)
  | none => (app, model, field)

def find_field (e : Exporter) (app0 model0 field0 : Option String) : Except PyErr FieldObj :=
  let amf := promoteDotted app0 model0 field0
  let app := amf.1
  let model := amf.2.1
  let field := amf.2.2
  if pyTruthyS app && pyTruthyS model && pyTruthyS field then
    match appsByName e (app.getD "") with
    | none => .error .fieldNotFound
    | some a =>
      match modelsByName a (model.getD "") with
      | none => .error .fieldNotFound
      | some m =>
        match fieldsByName m.fields (field.getD "") with
        | none => .error .fieldNotFound
        | some fo => .ok fo
  else if pyTruthyS field then
    match findFieldMatches e (field.getD "") with
    | [] => .error .fieldNotFound
    | [fo] => .ok fo
    | _ => .error .fieldNotFound
  else .error .fieldNotFound

/-- The fully qualified lookup chain `apps_by_name[app]`,
`models_by_name[model]`, `fields_by_name[field]`. -/
def qualifiedLookup (e : Exporter) (a m f : String) : Option FieldObj :=
  (appsByName e a).bind fun ao =>
    (modelsByName ao m).bind fun mo =>
      fieldsByName mo.fields f

/-! ## Formula resolution (`_resolve_formula`) -/

/-- The double-quote character used by the formula token regex. -/
def qc : Char := '"'

/-- The newline character, which `.` in the token regex cannot match. -/
def nlc : Char := Char.ofNat 10

/-- Scan for the closing quote of a token: `takeTok l = some (t, r)` when
`l` is `t ++ qc :: r` with `t` free of quotes and newlines.  A newline, or
the end of the string, before the closing quote gives `none`: in the
source regex `".*?"` the `.` does not match a newline (no `re.DOTALL`), so
such a span is not a token. -/
def takeTok : List Char → Option (List Char × List Char)
  | [] => none
  | c :: rest =>
    if c = qc then some ([], rest)
    else if c = nlc then none
    else
      match takeTok rest with
      | some (t, r) => some (c :: t, r)
      | none => none

/-- Fuelled scanner for the non-overlapping, non-greedy matches of the
regex `".*?"` (the quoted tokens of a formula), left to right.  When the
match at an opening quote fails (`takeTok` hits a newline or the end of
the string first), `re.finditer` resumes at the next position; since the
scanned span holds no quote, that is the same as resuming right after the
opening quote, which lets that span's characters (including a later
quote) still participate in matches. -/
def findTokensGo : Nat → List Char → List (List Char)
  | _, [] => []
  | 0, _ => []
  | fuel + 1, c :: rest =>
    if c = qc then
      match takeTok rest with
      | some (t, r) => t :: findTokensGo fuel r
      | none => findTokensGo fuel rest
    else findTokensGo fuel rest

/-- All quoted tokens of a formula, in order (`re.finditer('\".*?\"', formula)`). -/
def findTokens (s : List Char) : List (List Char) :=
  findTokensGo s.length s

/-- Fuelled Python `str.replace`: replace every non-overlapping occurrence
of `pat` (never empty here), scanning left to right. -/
def pyReplaceGo (pat rep : List Char) : Nat → List Char → List Char
  | _, [] => []
  | 0, s => s
  | fuel + 1, c :: rest =>
    if pat ≠ [] ∧ pat.isPrefixOf (c :: rest) then
      rep ++ pyReplaceGo pat rep fuel ((c :: rest).drop pat.length)
    else c :: pyReplaceGo pat rep fuel rest

/-- Python `s.replace(pat, rep)` for a non-empty pattern. -/
def pyReplace (s pat rep : List Char) : List Char :=
  pyReplaceGo pat rep s.length s

/-- `Exporter._resolve_formula` (exporter.py lines 546-559): falsy formula
resolves to `None`; a truthy layer other than `base`/`middle` raises
`ValueError`; otherwise each quoted token of the original formula is looked
up with `find_field` and `formula.replace(token, column)` is applied in
match order. -/
def resolve_formula (e : Exporter) (formula : Option String) (query_layer : Option String) :
    Except PyErr (Option String) :=
  if !pyTruthyS formula then .ok none
  else if pyTruthyS query_layer && query_layer ≠ some "base" && query_layer ≠ some "middle" then
    .error .valueError
  else do
    let f := (formula.getD "").data
    let r ← (findTokens f).foldlM
      (fun (acc : List Char) t => do
        let fo ← find_field e none none (some (String.mk t))
        pure (pyReplace acc (qc :: (t ++ [qc])) (fo.column query_layer).data))
      f
    pure (some (String.mk r))

/-- A formula presented as alternating unquoted/quoted segments: each part
is (unquoted text, token name, the column the token resolves to), followed
by a trailing unquoted segment.  Rendering produces the concrete formula
string the Python code receives. -/
def renderParts (parts : List (List Char × List Char × List Char)) (tail : List Char) : List Char :=
  match parts with
  | [] => tail
  | (u, t, _) :: rest => u ++ qc :: (t ++ qc :: renderParts rest tail)

/-- In-place substitution: every quoted token replaced by its resolved
column, all unquoted text untouched (the claimed behaviour). -/
def substParts (parts : List (List Char × List Char × List Char)) (tail : List Char) : List Char :=
  match parts with
  | [] => tail
  | (u, _, c) :: rest => u ++ c ++ substParts rest tail

/-! ## The query request object (`ExporterQuery`) -/

/-- `listify` from `ml_export_wizard.utils.simple`.  Modelled from the
spec: that module is not under `src/`; per the spec ("all list-typed;
scalar inputs are normalized into single-element lists") and the unit tests
(`listify(None) == []`, lists pass through), `None` becomes `[]` and a list
is returned unchanged.  Here the input is already `Option`-of-list. -/
def listify (o : Option (List String)) : List String :=
  match o with
  | none => []
  | some l => l

/-- A `where_before_join` value: `None` or a dict from table name to a list
of filter dicts (filters kept opaque as strings). -/
abbrev Wbj := Option (List (String × List String))

/-- Python truthiness of a `where_before_join` value (`None` and the empty
dict are falsy). -/
def pyTruthyWbj : Wbj → Bool
  | none => false
  | some l => !l.isEmpty

/-- `ExporterQuery`'s state: the underscored attributes set by `__init__`,
plus `is_executing`, the *separate* plain attribute that
`Cursor.__enter__`/`__exit__` assign (`self._query.is_executing = ...`);
`none` models the attribute not existing yet. -/
structure ExporterQuery where
  exporter : Option String := none
  where_before_join : Wbj := none
  limit : Option Int := none
  count : Option String := none
  group_by : List String := []
  whereCl : List String := []
  extra_field : List String := []
  order_by : List String := []
  cursor_open : Bool := false
  is_executing_underscore : Bool := false
  is_executing_attr : Option Bool := none
deriving DecidableEq, Repr

/-- `ExporterQuery.is_update_safe` (lines 658-663): raises
`QueryExecuting` when `self._is_executing` is set. -/
def is_update_safe (q : ExporterQuery) : Except PyErr Bool :=
  if q.is_executing_underscore then .error .queryExecuting else .ok true

/-- The `exporter` property setter. -/
def set_exporter (q : ExporterQuery) (v : Option String) : Except PyErr ExporterQuery := do
  let _ ← is_update_safe q
  .ok { q with exporter := v }

/-- The `where_before_join` property setter. -/
def set_where_before_join (q : ExporterQuery) (v : Wbj) : Except PyErr ExporterQuery := do
  let _ ← is_update_safe q
  .ok { q with where_before_join := v }

/-- The `limit` property setter. -/
def set_limit (q : ExporterQuery) (v : Option Int) : Except PyErr ExporterQuery := do
  let _ ← is_update_safe q
  .ok { q with limit := v }

/-- The `count` property setter. -/
def set_count (q : ExporterQuery) (v : Option String) : Except PyErr ExporterQuery := do
  let _ ← is_update_safe q
  .ok { q with count := v }

/-- The `group_by` property setter (the value is listified). -/
def set_group_by (q : ExporterQuery) (v : List String) : Except PyErr ExporterQuery := do
  let _ ← is_update_safe q
  .ok { q with group_by := v }

/-- The `where` property setter (the value is listified). -/
def set_where (q : ExporterQuery) (v : List String) : Except PyErr ExporterQuery := do
  let _ ← is_update_safe q
  .ok { q with whereCl := v }

/-- The `extra_field` property setter (the value is listified). -/
def set_extra_field (q : ExporterQuery) (v : List String) : Except PyErr ExporterQuery := do
  let _ ← is_update_safe q
  .ok { q with extra_field := v }

/-- The `order_by` property setter (the value is listified). -/
def set_order_by (q : ExporterQuery) (v : List String) : Except PyErr ExporterQuery := do
  let _ ← is_update_safe q
  .ok { q with order_by := v }

/-- `ExporterQuery.Cursor.__enter__` (lines 736-746) as it affects the
query object: it assigns `self._query.is_executing = True` — a plain
attribute, *not* the underscored `_is_executing` flag that
`is_update_safe` consults — and opens the cursor. -/
def cursor_enter (q : ExporterQuery) : ExporterQuery :=
  { q with cursor_open := true, is_executing_attr := some true }

/-- `ExporterQuery.Cursor.__exit__` (lines 748-756): clears the cursor and
assigns `self._query.is_executing = False` (again the plain attribute). -/
def cursor_exit (q : ExporterQuery) : ExporterQuery :=
  { q with cursor_open := false, is_executing_attr := some false }

/-! ## Rollup inner-query construction (`ExporterRollup._sql_dict`) -/

/-- The rollup's declared settings that `_sql_dict` consults:
`where_before_join`, `group_by` and `extra_field` (`none` = key absent). -/
structure RollupSettings where
  where_before_join : Wbj := none
  group_by : Option (List String) := none
  extra_field : Option (List String) := none
deriving DecidableEq, Repr

/-- The `where_before_join` merge loop of `ExporterRollup._sql_dict`: for
each table of the rollup's declared dict, extend the query's filter list
when the table is already present, otherwise add the table. -/
def mergeWbjFold (acc w : List (String × List String)) : List (String × List String) :=
  w.foldl (fun acc p =>
    if acc.any (fun e => e.1 == p.1) then
      acc.map (fun e => if e.1 == p.1 then (e.1, e.2 ++ p.2) else e)
    else acc ++ [p]) acc

/-- The inner query built by `ExporterRollup._sql_dict` (exporter.py lines
922-948) from a deep copy of the caller's query: merge the rollup's
declared `where_before_join` into the copy, then override `group_by` and
`extra_field` with the rollup's declared values and clear `order_by`,
`where` and `limit` (all through the property setters, which consult
`_is_executing`).  The deep copy is modelled by value semantics: the
function returns a new query and its argument is unchanged. -/
def rollup_query (s : RollupSettings) (q : ExporterQuery) : Except PyErr ExporterQuery := do
  let rq := q
  let rq ←
    match s.where_before_join with
    | none => pure rq
    | some w =>
      if !pyTruthyWbj rq.where_before_join then
        set_where_before_join rq (some w)
      else
        pure { rq with where_before_join := some (mergeWbjFold (rq.where_before_join.getD []) w) }
  let rq ← set_group_by rq (listify s.group_by)
  let rq ← set_extra_field rq (listify s.extra_field)
  let rq ← set_order_by rq []
  let rq ← set_where rq []
  let rq ← set_limit rq none
  pure rq

/-- Lookup of a table's filter list in a table-keyed association list. -/
def assocGet (l : List (String × List String)) (t : String) : List String :=
  match l.find? (fun p => p.1 == t) with
  | some p => p.2
  | none => []

/-- Lookup of a table's filter list in a `where_before_join` value; an
absent dict or table contributes no filters. -/
def wbjGet (o : Wbj) (t : String) : List String :=
  match o with
  | none => []
  | some l => assocGet l t

/-! ## Join-graph traversal (`ExporterApp._sql_dict` / `ExporterModel._sql_dict`) -/

/-- A model as the join traversal sees it: its name, the related-model
names of its relationship fields (`ManyToOneRel`/`ForeignKey`/`OneToOneRel`
fields, in field declaration order) and its `dont_link_to` setting (absent
modelled as the empty list). -/
structure JModel where
  name : String
  relTargets : List String
  dontLinkTo : List String
deriving DecidableEq, Repr

/-- An app as the join traversal sees it: its models and the declared
`primary_model` name. -/
structure JApp where
  models : List JModel
  primaryModel : Option String
deriving DecidableEq, Repr

/-- `self.parent.models_by_name` membership/lookup for a related-model
name. -/
def findJModel (app : JApp) (n : String) : Option JModel :=
  app.models.find? (fun m => m.name == n)

/-- The join walk of `ExporterModel._sql_dict` (exporter.py lines 822-879),
projected to the visitation discipline: the model adds itself to the app's
`prepped_models` set after emitting its own fragment and before the join
loop; each relationship field whose target is a sibling model is skipped
when the target is already prepped or when either side's `dont_link_to`
names the other, and is otherwise joined recursively (as a LEFT JOIN).
Returns the updated prepped set and the list of models whose fragment was
emitted, in emission order.  The fuel only bounds recursion depth; any
fuel above the model count reproduces the Python run. -/
def model_sql_dict_joins (app : JApp) : Nat → List String → JModel → List String × List String
  | 0, prepped, _ => (prepped, [])
  | fuel + 1, prepped, m =>
    let prepped1 := m.name :: prepped
    m.relTargets.foldl
      (fun acc t =>
        match findJModel app t with
        | none => acc
        | some jm =>
          if jm.name ∈ acc.1 ∨ t ∈ m.dontLinkTo ∨ m.name ∈ jm.dontLinkTo then acc
          else
            let r := model_sql_dict_joins app fuel acc.1 jm
            (r.1, acc.2 ++ r.2))
      (prepped1, [m.name])

/-- `ExporterApp._sql_dict` (exporter.py lines 775-787), projected to the
visitation discipline: reset `prepped_models` to the empty set, then
delegate to the declared primary model.  A missing or unknown primary model
raises (`ImproperlyConfigured`/`KeyError`); the emission trace is then
empty. -/
def app_sql_dict_joins (app : JApp) : List String :=
  match app.primaryModel with
  | none => []
  | some p =>
    match findJModel app p with
    | none => []
    | some m => (model_sql_dict_joins app (app.models.length + 1) [] m).2

/-! ## Extra-field literal resolution (`Exporter._resolve_extra_field`) -/

/-- A select bit as `_resolve_extra_field` returns it in the literal path:
the string and int cases return values of different Python types. -/
inductive SelectBit where
  | s (v : String)
  | i (n : Int)
deriving DecidableEq, Repr

/-- A single-quote character, for building the Python string constants. -/
def sqt : String := String.singleton (Char.ofNat 39)

/-- The exact text the string-literal branch of `_resolve_extra_field`
returns: the source reads `return ("'{column['value']}'", [])` — a plain
(non-f) string — so the braces are never interpolated and the constant
below is returned for every string value. -/
def literalBranchText : String :=
  sqt ++ "\x7bcolumn[" ++ sqt ++ "value" ++ sqt ++ "]\x7d" ++ sqt

/-- The `"value" in column` path of `Exporter._resolve_extra_field`
(exporter.py lines 394-404): `None` returns the SQL text `Null`; a string
returns the constant `literalBranchText` (missing f-string prefix); an int
returns the int itself.  `none` means the match fell through (no early
return). -/
def resolve_extra_field_value : PyVal → Option (SelectBit × List (String × PyVal))
  | .vNone => some (.s "Null", [])
  | .vStr _ => some (.s literalBranchText, [])
  | .vInt n => some (.i n, [])

/-! ## Rollup construction (`ExporterRollup.__init__`) -/

/-- The dataset lookup in `ExporterRollup.__init__` (exporter.py line 890):
`self.exporter = exporters[exporter]` is a plain dict indexing of the
global registry, so a missing name raises the builtin `KeyError`. -/
def rollup_init_exporter (registry : List (String × Exporter)) (name : String) :
    Except PyErr Exporter :=
  match registry.find? (fun p => p.1 == name) with
  | some p => .ok p.2
  | none => .error .keyError

/-! ## `_resolve_where` -/

/-- `_resolve_where` (exporter.py lines 1067-1082): a falsy operator,
field or value short-circuits to `(None, None)`; otherwise a comparison
operator yields `column op %(column)s` and the value is always bound under
the column key. -/
def resolve_where (operator : Option String) (field : Option FieldObj) (value : PyVal)
    (query_layer : Option String) : Option String × Option (List (String × PyVal)) :=
  if !pyTruthyS operator || field.isNone || !pyTruthyVal value then (none, none)
  else
    let field_column := (field.getD (.pseudo ⟨""⟩)).column query_layer
    let where_bit :=
      if operator = some "=" ∨ operator = some ">=" ∨ operator = some "<=" ∨
         operator = some "<>" ∨ operator = some "!=" then
        field_column ++ (operator.getD "") ++ "%(" ++ field_column ++ ")s"
      else ""
    (some where_bit, some [(field_column, value)])

/-! ## Concrete instances used by closed theorems and witnesses -/

/-- A concrete fresh query (as built by `ExporterQuery.__init__`) with a
limit, used to exercise the executing-lock. -/
def cbugQuery : ExporterQuery := { limit := some 1 }

/-- A concrete exporter with one app owning two models: the field name
`x` occurs in both models (ambiguous), `y` only in the second. -/
def witExporter : Exporter :=
  { name := "ex"
    fields := []
    apps := [{ name := "app"
               models := [{ name := "M1", fields := [.field ⟨"x", "x", "m1"⟩] },
                          { name := "M2", fields := [.field ⟨"x", "x", "m2"⟩,
                                                     .field ⟨"y", "y", "m2"⟩] }] }]
    rollups := [] }

/-- A concrete exporter whose pseudofields `b`, `a`, `c` resolve to their
own names, used to exercise formula substitution. -/
def formulaExporter : Exporter :=
  { name := "fx"
    fields := [.pseudo ⟨"b"⟩, .pseudo ⟨"a"⟩, .pseudo ⟨"c"⟩]
    apps := []
    rollups := [] }

/-- A concrete caller query for the rollup witness: it carries ordering,
row filters, a limit and a pre-join filter on table `t`. -/
def witQ : ExporterQuery :=
  { where_before_join := some [("t", ["f1"])]
    limit := some 3
    group_by := ["g0"]
    whereCl := ["w0"]
    order_by := ["o0"] }

/-- A concrete rollup declaration for the witness: its own pre-join
filters on `t` and `u`, grouping and aggregate columns. -/
def witS : RollupSettings :=
  { where_before_join := some [("t", ["f2"]), ("u", ["g1"])]
    group_by := some ["gb"]
    extra_field := some ["ef"] }

/-- A concrete exporter for the duplicate-token counterexample: real
fields whose lookup name and physical column differ, so the field named
`a` resolves to the column text `x`, the name of another token. -/
def dupExporter : Exporter :=
  { name := "dx"
    fields := []
    apps := [{ name := "app"
               models := [{ name := "M"
                            fields := [.field ⟨"a", "x", "t"⟩, .field ⟨"x", "X", "t"⟩,
                                       .field ⟨"b", "B", "t"⟩, .field ⟨"c", "C", "t"⟩] }] }]
    rollups := [] }

/-- Segment representation of the formula `"b" "a"b"c"`: tokens `b`, `a`,
`c` with the unquoted text `b` between the last two. -/
def cexParts : List (List Char × List Char × List Char) :=
  [(([] : List Char), ("b" : String).data, ("b" : String).data),
   ((" " : String).data, ("a" : String).data, ("a" : String).data),
   (("b" : String).data, ("c" : String).data, ("c" : String).data)]

/-- Segment representation of the formula `"a" "x" "b""a""c"` over
`dupExporter`: the token `a` occurs twice and resolves to the column `x`. -/
def dupParts : List (List Char × List Char × List Char) :=
  [(([] : List Char), ("a" : String).data, ("x" : String).data),
   ((" " : String).data, ("x" : String).data, ("X" : String).data),
   ((" " : String).data, ("b" : String).data, ("B" : String).data),
   (([] : List Char), ("a" : String).data, ("x" : String).data),
   (([] : List Char), ("c" : String).data, ("C" : String).data)]

/-! # Theorems -/

/-! ## Helper lemmas -/

/-- `find?` over an append scans the left list first. -/
theorem findP_append {α : Type} (p : α → Bool) (l1 l2 : List α) :
    (l1 ++ l2).find? p =
      match l1.find? p with
      | some x => some x
      | none => l2.find? p := by
  induction l1 with
  | nil => simp
  | cons a l ih => by_cases h : p a <;> simp [List.find?_cons, h, ih]

/-- `find?` by key commutes with a key-preserving map. -/
theorem findP_map_keypres (upd : String × String → String × String)
    (hk : ∀ p, (upd p).1 = p.1) (l : List (String × String)) (k : String) :
    (l.map upd).find? (fun p => p.1 == k) = (l.find? (fun p => p.1 == k)).map upd := by
  induction l with
  | nil => simp
  | cons a l ih =>
    by_cases h : a.1 == k <;>
      simp [List.find?_cons, hk a, h, ih]

/-- Filtering out entries whose key lies in `d1` does not affect a `find?`
for a key that `d1` lacks. -/
theorem findP_filter_missing (d1 d2 : List (String × String)) (k : String)
    (h : d1.find? (fun p => p.1 == k) = none) :
    (d2.filter (fun q => !(d1.any (fun p => p.1 == q.1)))).find? (fun p => p.1 == k)
      = d2.find? (fun p => p.1 == k) := by
  have hall : ∀ x ∈ d1, ¬((fun p => p.1 == k) x = true) := List.find?_eq_none.mp h
  induction d2 with
  | nil => simp
  | cons q l ih =>
    by_cases hq : q.1 == k
    · have hqk : q.1 = k := by simpa using hq
      have hany : d1.any (fun p => p.1 == q.1) = false := by
        rw [List.any_eq_false]
        intro p hp
        have := hall p hp
        simpa [hqk] using this
      simp [List.filter_cons, hany, List.find?_cons, hq]
    · by_cases hkeep : d1.any (fun p => p.1 == q.1) <;>
        simp [List.filter_cons, hkeep, List.find?_cons, hq, ih]

/-- Lookup in a Python dict union: the second operand wins on collision. -/
theorem pyDictUnion_get (d1 d2 : List (String × String)) (k : String) :
    ((pyDictUnion d1 d2).find? (fun p => p.1 == k)).map (fun p => p.2)
    = match (d2.find? (fun p => p.1 == k)).map (fun p => p.2) with
      | some v => some v
      | none => (d1.find? (fun p => p.1 == k)).map (fun p => p.2) := by
  unfold pyDictUnion
  rw [findP_append, findP_map_keypres _ (fun p => by
    rcases hf : d2.find? (fun q => q.1 == p.1) with _ | q <;> simp [hf])]
  cases hd1 : d1.find? (fun p => p.1 == k) with
  | none =>
    rw [findP_filter_missing d1 d2 k hd1]
    cases hd2 : d2.find? (fun p => p.1 == k) <;> simp [hd2]
  | some a =>
    have hak : a.1 = k := by
      have := List.find?_some hd1
      simpa using this
    cases hd2 : d2.find? (fun p => p.1 == k) <;>
      simp [hak, hd2]

/-- A merged clause equals its specification: the non-empty values of the
two operands joined with the separator. -/
theorem mergeClausePair_eq (sep : String) (x y : Option String) :
    mergeClausePair sep x y = clauseSpec sep x y := by
  rcases x with _ | v1 <;> rcases y with _ | v2
  · rfl
  · by_cases h : v2 = "" <;> simp [mergeClausePair, clauseSpec, optVals, sepJoin, h]
  · by_cases h : v1 = "" <;> simp [mergeClausePair, clauseSpec, optVals, sepJoin, h]
  · by_cases h1 : v1 = "" <;> by_cases h2 : v2 = "" <;>
      simp [mergeClausePair, clauseSpec, optVals, sepJoin, joinFiltered, h1, h2]

/-- C1: `merge_sql_dicts` is total on optional fragments: `(None, None)`
gives `None`, one `None` side gives a copy of the other, and for two
fragments every one of the six clauses equals the operands' non-empty
values joined with its fixed separator (`", "` for
select/select_no_table/group_by, `" "` for from, `" AND "` for
where/having), a clause absent from both becomes the empty string, and the
parameter maps are unioned with the second operand winning on key
collision. -/
theorem merge_sql_dicts_matches_spec :
    merge_sql_dicts none none = none ∧
    (∀ d : SqlDict, merge_sql_dicts (some d) none = some d ∧
      merge_sql_dicts none (some d) = some d) ∧
    (∀ d1 d2 : SqlDict, ∃ m : SqlDict,
      merge_sql_dicts (some d1) (some d2) = some m ∧
      m.select = some (clauseSpec ", " d1.select d2.select) ∧
      m.select_no_table = some (clauseSpec ", " d1.select_no_table d2.select_no_table) ∧
      m.fromCl = some (clauseSpec " " d1.fromCl d2.fromCl) ∧
      m.whereCl = some (clauseSpec " AND " d1.whereCl d2.whereCl) ∧
      m.group_by = some (clauseSpec ", " d1.group_by d2.group_by) ∧
      m.having = some (clauseSpec " AND " d1.having d2.having) ∧
      (∀ k, paramGet m.parameters k =
        match paramGet d2.parameters k with
        | some v => some v
        | none => paramGet d1.parameters k)) := by
  refine ⟨rfl, fun d => ⟨rfl, rfl⟩, fun d1 d2 => ⟨_, rfl, ?_, ?_, ?_, ?_, ?_, ?_, ?_⟩⟩
  · exact congrArg some (mergeClausePair_eq _ _ _)
  · exact congrArg some (mergeClausePair_eq _ _ _)
  · exact congrArg some (mergeClausePair_eq _ _ _)
  · exact congrArg some (mergeClausePair_eq _ _ _)
  · exact congrArg some (mergeClausePair_eq _ _ _)
  · exact congrArg some (mergeClausePair_eq _ _ _)
  · intro k
    rcases h1 : d1.parameters with _ | p1 <;> rcases h2 : d2.parameters with _ | p2
    · simp [paramGet]
    · simp only [paramGet, Option.getD]
      cases p2.find? (fun p => p.1 == k) <;> simp
    · simp only [paramGet, Option.getD]
      simp
    · simpa [paramGet] using pyDictUnion_get p1 p2 k

/-- C3 counterexample: at layer `outer`, `column` renders the alias with a
lowercase `as`; for the field with column `c` on table `t` the result is
`"t_c as c"`, not the claimed `"t_c AS c"`. -/
theorem column_outer_counterexample :
    ExporterField.column ⟨"c", "c", "t"⟩ (some "outer") = "t_c as c" ∧
    "t_c as c" ≠ "t_c AS c" :=
  ⟨rfl, by decide⟩

/-- C3 (amended): `column` is a pure function of the field's physical
descriptor and the layer: `t.c` at `base`, `c AS t_c` at `inner`, `t_c` at
`middle`, `t_c as c` (lowercase `as`) at `outer`, and the bare column name
when the layer is unset. -/
theorem column_layer_spec (f : ExporterField) :
    f.column (some "base") = f.parentTable ++ "." ++ f.columnName ∧
    f.column (some "inner") = f.columnName ++ " AS " ++ f.parentTable ++ "_" ++ f.columnName ∧
    f.column (some "middle") = f.parentTable ++ "_" ++ f.columnName ∧
    f.column (some "outer") = f.parentTable ++ "_" ++ f.columnName ++ " as " ++ f.columnName ∧
    f.column none = f.columnName := by
  refine ⟨?_, ?_, ?_, ?_, ?_⟩ <;> simp [ExporterField.column]

/-- C6: the execution lock is never engaged.  `Cursor.__enter__` assigns
the plain attribute `is_executing` instead of the underscored
`_is_executing` flag that `is_update_safe` checks, so with the cursor open
every one of the eight property setters still succeeds instead of raising
`QueryExecuting`. -/
theorem setters_succeed_while_cursor_open :
    (cursor_enter cbugQuery).cursor_open = true ∧
    (cursor_enter cbugQuery).is_executing_attr = some true ∧
    set_exporter (cursor_enter cbugQuery) (some "e")
      = .ok { cursor_enter cbugQuery with exporter := some "e" } ∧
    set_where_before_join (cursor_enter cbugQuery) (some [("t", ["f"])])
      = .ok { cursor_enter cbugQuery with where_before_join := some [("t", ["f"])] } ∧
    set_limit (cursor_enter cbugQuery) (some 5)
      = .ok { cursor_enter cbugQuery with limit := some 5 } ∧
    set_count (cursor_enter cbugQuery) (some "n")
      = .ok { cursor_enter cbugQuery with count := some "n" } ∧
    set_group_by (cursor_enter cbugQuery) ["g"]
      = .ok { cursor_enter cbugQuery with group_by := ["g"] } ∧
    set_where (cursor_enter cbugQuery) ["w"]
      = .ok { cursor_enter cbugQuery with whereCl := ["w"] } ∧
    set_extra_field (cursor_enter cbugQuery) ["x"]
      = .ok { cursor_enter cbugQuery with extra_field := ["x"] } ∧
    set_order_by (cursor_enter cbugQuery) ["o"]
      = .ok { cursor_enter cbugQuery with order_by := ["o"] } :=
  ⟨rfl, rfl, rfl, rfl, rfl, rfl, rfl, rfl, rfl, rfl⟩

/-- C7: the string branch of the literal path returns the raw text
`'{column['value']}'` (the source string lacks the `f` prefix), not the
value in quotes; `None` returns `Null` and an int returns the int itself. -/
theorem extra_field_string_literal_bug :
    resolve_extra_field_value (.vStr "abc") = some (.s literalBranchText, []) ∧
    literalBranchText ≠ sqt ++ "abc" ++ sqt ∧
    resolve_extra_field_value .vNone = some (.s "Null", []) ∧
    resolve_extra_field_value (.vInt 7) = some (.i 7, []) :=
  ⟨rfl, by decide, rfl, rfl⟩

/-- C9: a rollup naming an unregistered dataset fails with the builtin
`KeyError` from `exporters[exporter]`, not with `ExporterNotFound` (which
the source imports but never raises). -/
theorem rollup_missing_exporter_keyerror :
    rollup_init_exporter [] "missing" = .error .keyError ∧
    PyErr.keyError ≠ PyErr.exporterNotFound :=
  ⟨rfl, by decide⟩

/-- C10: whenever the operator, the field or the value passed to
`_resolve_where` is missing or falsy (`None`, `""`, `0`), the result is
`(None, None)`: the predicate is silently omitted, not rejected. -/
theorem resolve_where_falsy_omits (operator : Option String) (field : Option FieldObj)
    (value : PyVal) (query_layer : Option String)
    (h : pyTruthyS operator = false ∨ field = none ∨ pyTruthyVal value = false) :
    resolve_where operator field value query_layer = (none, none) := by
  rcases h with h | h | h <;> simp [resolve_where, h]

/-- Witness for C10 at the operator `=`, a real field and the falsy value
`0`. -/
theorem resolve_where_falsy_omits_witness :
    (pyTruthyS (some "=") = false ∨ (some (FieldObj.pseudo ⟨"f"⟩) : Option FieldObj) = none ∨
      pyTruthyVal (.vInt 0) = false) ∧
    resolve_where (some "=") (some (.pseudo ⟨"f"⟩)) (.vInt 0) none = (none, none) :=
  ⟨Or.inr (Or.inr (by decide)),
   resolve_where_falsy_omits (some "=") (some (.pseudo ⟨"f"⟩)) (.vInt 0) none
     (Or.inr (Or.inr (by decide)))⟩

/-- The dotted promotion is the identity when the app segment is given. -/
theorem promoteDotted_qualified (a m f : String) (ha : a ≠ "") :
    promoteDotted (some a) (some m) (some f) = (some a, some m, some f) := by
  simp [promoteDotted, pyTruthyS, ha]

/-- The dotted promotion is the identity on a non-dotted unqualified name. -/
theorem promoteDotted_plain (f : String) (hd : (splitDots f.data []).length ≠ 3) :
    promoteDotted none none (some f) = (none, none, some f) := by
  unfold promoteDotted
  rcases hsp : splitDots f.data [] with _ | ⟨x, _ | ⟨y, _ | ⟨z, _ | ⟨w, rest⟩⟩⟩⟩ <;>
    simp [pyTruthyS, hsp]
  exact absurd (by rw [hsp] ; rfl) hd

/-- With all three segments truthy, `find_field` is the three-step
`*_by_name` chain, any miss raising `FieldNotFound`. -/
theorem find_field_qualified (e : Exporter) (a m f : String)
    (ha : a ≠ "") (hm : m ≠ "") (hf : f ≠ "") :
    find_field e (some a) (some m) (some f) =
      match qualifiedLookup e a m f with
      | some fo => .ok fo
      | none => .error .fieldNotFound := by
  unfold find_field qualifiedLookup
  rw [promoteDotted_qualified a m f ha]
  simp [pyTruthyS, ha, hm, hf]
  rcases hao : appsByName e a with _ | ao
  · simp [hao]
  · rcases hmo : modelsByName ao m with _ | mo
    · simp [hao, hmo]
    · rcases hfo : fieldsByName mo.fields f with _ | fo <;> simp [hao, hmo, hfo]

/-- With only an unqualified, non-dotted name, `find_field` is decided by
the candidate list: empty and ambiguous lists raise `FieldNotFound`, a
singleton is returned. -/
theorem find_field_unqualified (e : Exporter) (f : String)
    (hf : f ≠ "") (hd : (splitDots f.data []).length ≠ 3) :
    find_field e none none (some f) =
      match findFieldMatches e f with
      | [] => .error .fieldNotFound
      | [fo] => .ok fo
      | _ :: _ :: _ => .error .fieldNotFound := by
  unfold find_field
  rw [promoteDotted_plain f hd]
  simp [pyTruthyS, hf]
  rcases hms : findFieldMatches e f with _ | ⟨fo, _ | ⟨fo2, l⟩⟩ <;> simp [hms]

/-- C2: `find_field` raises `FieldNotFound` when nothing matches, raises
`FieldNotFound` (ambiguity) when an unqualified name matches more than one
field across the exporter's pseudofields, its apps' models and its
rollups, raises `FieldNotFound` when a fully qualified lookup misses any
segment, and returns the field when exactly one matches. -/
theorem find_field_spec (e : Exporter) :
    (∀ a m f : String, a ≠ "" → m ≠ "" → f ≠ "" →
      ((qualifiedLookup e a m f = none →
          find_field e (some a) (some m) (some f) = .error .fieldNotFound) ∧
       (∀ fo, qualifiedLookup e a m f = some fo →
          find_field e (some a) (some m) (some f) = .ok fo))) ∧
    (∀ f : String, f ≠ "" → (splitDots f.data []).length ≠ 3 →
      ((findFieldMatches e f = [] → find_field e none none (some f) = .error .fieldNotFound) ∧
       (∀ fo, findFieldMatches e f = [fo] → find_field e none none (some f) = .ok fo) ∧
       (2 ≤ (findFieldMatches e f).length →
          find_field e none none (some f) = .error .fieldNotFound))) ∧
    find_field e none none none = .error .fieldNotFound := by
  refine ⟨fun a m f ha hm hf => ⟨?_, ?_⟩, fun f hf hd => ⟨?_, ?_, ?_⟩, rfl⟩
  · intro h
    rw [find_field_qualified e a m f ha hm hf, h]
  · intro fo h
    rw [find_field_qualified e a m f ha hm hf, h]
  · intro h
    rw [find_field_unqualified e f hf hd, h]
  · intro fo h
    rw [find_field_unqualified e f hf hd, h]
  · intro h2
    rw [find_field_unqualified e f hf hd]
    rcases hms : findFieldMatches e f with _ | ⟨fo, _ | ⟨fo2, l⟩⟩
    · rw [hms] at h2
    · rw [hms] at h2
      simp at h2
    · rfl

/-- Witness for C2 on `witExporter`: the qualified path hits and misses,
the unqualified name `x` is ambiguous (two models), `y` is unique. -/
theorem find_field_spec_witness :
    (("app" : String) ≠ "" ∧ ("M2" : String) ≠ "" ∧ ("y" : String) ≠ "" ∧
      (splitDots ("y" : String).data []).length ≠ 3 ∧
      (splitDots ("x" : String).data []).length ≠ 3 ∧
      2 ≤ (findFieldMatches witExporter "x").length ∧
      qualifiedLookup witExporter "app" "M2" "y" = some (.field ⟨"y", "y", "m2"⟩) ∧
      qualifiedLookup witExporter "app" "M3" "y" = none ∧
      findFieldMatches witExporter "y" = [.field ⟨"y", "y", "m2"⟩]) ∧
    find_field witExporter (some "app") (some "M2") (some "y") = .ok (.field ⟨"y", "y", "m2"⟩) ∧
    find_field witExporter (some "app") (some "M3") (some "y") = .error .fieldNotFound ∧
    find_field witExporter none none (some "x") = .error .fieldNotFound ∧
    find_field witExporter none none (some "y") = .ok (.field ⟨"y", "y", "m2"⟩) :=
  ⟨⟨by decide, by decide, by decide, by decide, by decide, by decide, by decide, by decide,
    by decide⟩,
   ((find_field_spec witExporter).1 "app" "M2" "y" (by decide) (by decide) (by decide)).2
     (.field ⟨"y", "y", "m2"⟩) (by decide),
   ((find_field_spec witExporter).1 "app" "M3" "y" (by decide) (by decide) (by decide)).1
     (by decide),
   (((find_field_spec witExporter).2.1 "x" (by decide) (by decide)).2.2 (by decide)),
   (((find_field_spec witExporter).2.1 "y" (by decide) (by decide)).2.1
     (.field ⟨"y", "y", "m2"⟩) (by decide))⟩

/-- `assocGet` on a cons. -/
theorem assocGet_cons (e : String × List String) (l : List (String × List String)) (t : String) :
    assocGet (e :: l) t = if e.1 == t then e.2 else assocGet l t := by
  by_cases h : e.1 == t <;> simp [assocGet, List.find?_cons, h]

/-- A key absent from the list looks up to no filters. -/
theorem assocGet_not_mem (l : List (String × List String)) (t : String)
    (h : t ∉ l.map Prod.fst) : assocGet l t = [] := by
  induction l with
  | nil => rfl
  | cons e l ih =>
    rw [assocGet_cons]
    have he : ¬(e.1 == t) := by
      simp only [List.map_cons, List.mem_cons] at h
      simp [beq_iff_eq]
      exact fun hh => h (Or.inl hh.symm)
    simp only [he, if_false]
    exact ih (fun hm => h (by simp [List.map_cons]; right; simpa using hm))

/-- A key that no entry carries looks up to no filters (Bool form). -/
theorem assocGet_eq_nil_of_any_false (l : List (String × List String)) (t : String)
    (h : l.any (fun e => e.1 == t) = false) : assocGet l t = [] := by
  apply assocGet_not_mem
  intro hm
  rcases List.mem_map.mp hm with ⟨e, hel, hek⟩
  have htrue : l.any (fun e => e.1 == t) = true :=
    List.any_eq_true.mpr ⟨e, hel, by simp [hek]⟩
  rw [htrue] at h
  simp at h

/-- The extend-in-place update changes no other key's lookup. -/
theorem assocGet_map_extend_ne (l : List (String × List String)) (t1 : String)
    (b1 : List String) (t : String) (hne : t ≠ t1) :
    assocGet (l.map (fun e => if e.1 == t1 then (e.1, e.2 ++ b1) else e)) t
      = assocGet l t := by
  induction l with
  | nil => rfl
  | cons e l ih =>
    cases heb : (e.1 == t1) with
    | false =>
      simp only [List.map_cons, heb, Bool.false_eq_true, if_false]
      rw [assocGet_cons, assocGet_cons]
      cases het : (e.1 == t) with
      | true => simp [het]
      | false =>
        simp only [het, Bool.false_eq_true, if_false]
        exact ih
    | true =>
      have he1 : e.1 = t1 := by simpa using heb
      have het : (e.1 == t) = false := by
        rw [he1]
        exact beq_eq_false_iff_ne.mpr (Ne.symm hne)
      simp only [List.map_cons, heb, if_true]
      rw [assocGet_cons, assocGet_cons]
      simp only [het, Bool.false_eq_true, if_false]
      exact ih

/-- The extend-in-place update concatenates onto the present key's lookup. -/
theorem assocGet_map_extend_eq (l : List (String × List String)) (t1 : String)
    (b1 : List String) (hc : l.any (fun e => e.1 == t1) = true) :
    assocGet (l.map (fun e => if e.1 == t1 then (e.1, e.2 ++ b1) else e)) t1
      = assocGet l t1 ++ b1 := by
  induction l with
  | nil => simp at hc
  | cons e l ih =>
    cases heb : (e.1 == t1) with
    | true =>
      simp only [List.map_cons, heb, if_true]
      rw [assocGet_cons, assocGet_cons]
      simp [heb]
    | false =>
      simp only [List.map_cons, heb, Bool.false_eq_true, if_false]
      rw [assocGet_cons, assocGet_cons]
      simp only [heb, Bool.false_eq_true, if_false]
      apply ih
      rcases (List.any_eq_true.mp hc) with ⟨x, hxl, hx⟩
      rcases List.mem_cons.mp hxl with hxe | hxl2
      · rw [hxe] at hx
        rw [hx] at heb
        exact absurd heb (by simp)
      · exact List.any_eq_true.mpr ⟨x, hxl2, hx⟩

/-- Appending a fresh key: present keys unchanged, the fresh key found. -/
theorem assocGet_append_single (l : List (String × List String)) (t1 : String)
    (b1 : List String) (t : String) :
    assocGet (l ++ [(t1, b1)]) t =
      if l.any (fun e => e.1 == t) then assocGet l t
      else if t1 == t then b1 else [] := by
  induction l with
  | nil =>
    cases h : (t1 == t) with
    | true => simp [assocGet_cons, assocGet, h]
    | false => simp [assocGet_cons, assocGet, h]
  | cons e l ih =>
    rw [List.cons_append, assocGet_cons, assocGet_cons]
    cases he : (e.1 == t) with
    | true => simp [List.any_cons, he]
    | false =>
      simp only [he, Bool.false_eq_true, if_false, List.any_cons, Bool.false_or]
      exact ih

/-- A falsy `where_before_join` value yields no filters for any table. -/
theorem wbjGet_falsy (o : Wbj) (t : String) (h : pyTruthyWbj o = false) :
    wbjGet o t = [] := by
  rcases o with _ | l
  · rfl
  · rcases l with _ | ⟨e, l⟩
    · rfl
    · simp [pyTruthyWbj] at h

/-- The `where_before_join` merge loop of the rollup concatenates the
caller's and the rollup's filter lists table by table (the rollup's dict
has distinct keys, as every Python dict does). -/
theorem mergeWbjFold_get (w : List (String × List String)) :
    ∀ acc : List (String × List String), (w.map Prod.fst).Nodup →
      ∀ t, assocGet (mergeWbjFold acc w) t = assocGet acc t ++ assocGet w t := by
  induction w with
  | nil => intro acc _ t; simp [mergeWbjFold, assocGet]
  | cons p w ih =>
    intro acc hnd t
    obtain ⟨hnd1, hnd2⟩ : p.1 ∉ w.map Prod.fst ∧ (w.map Prod.fst).Nodup := by
      simpa [List.nodup_cons] using hnd
    have hstep : mergeWbjFold acc (p :: w) =
        mergeWbjFold (if acc.any (fun e => e.1 == p.1) then
            acc.map (fun e => if e.1 == p.1 then (e.1, e.2 ++ p.2) else e)
          else acc ++ [p]) w := rfl
    rw [hstep, ih _ hnd2 t, assocGet_cons]
    cases hc : acc.any (fun e => e.1 == p.1) with
    | true =>
      simp only [hc, if_true]
      cases ht : (p.1 == t) with
      | true =>
        have ht' : p.1 = t := by simpa using ht
        subst ht'
        rw [assocGet_map_extend_eq acc p.1 p.2 hc, assocGet_not_mem w p.1 hnd1]
        simp
      | false =>
        have hne : t ≠ p.1 := Ne.symm (by simpa using ht)
        rw [assocGet_map_extend_ne acc p.1 p.2 t hne]
        simp [ht]
    | false =>
      simp only [hc, Bool.false_eq_true, if_false]
      rw [assocGet_append_single acc p.1 p.2 t]
      cases ht : (p.1 == t) with
      | true =>
        have ht' : p.1 = t := by simpa using ht
        subst ht'
        rw [hc, assocGet_eq_nil_of_any_false acc p.1 hc,
          assocGet_not_mem w p.1 hnd1]
        simp [ht]
      | false =>
        cases ha : acc.any (fun e => e.1 == t) with
        | true => simp [ha, ht]
        | false =>
          rw [assocGet_eq_nil_of_any_false acc t ha]
          simp [ha, ht]

/-- C4: the rollup's inner compilation works on a (deep-copied) query in
which `group_by` and `extra_field` are replaced by the rollup's declared
values, `order_by`/`where`/`limit` are cleared, and `where_before_join` is
merged with the rollup's declared dict by concatenating the filter lists
of tables appearing in both (the caller's query value is unchanged: the
function is pure and returns a fresh record). -/
theorem rollup_query_spec (q : ExporterQuery) (s : RollupSettings)
    (hexec : q.is_executing_underscore = false)
    (hw : ((s.where_before_join.getD []).map Prod.fst).Nodup) :
    ∃ rq, rollup_query s q = .ok rq ∧
      rq.group_by = listify s.group_by ∧
      rq.extra_field = listify s.extra_field ∧
      rq.order_by = [] ∧
      rq.whereCl = [] ∧
      rq.limit = none ∧
      (∀ t, wbjGet rq.where_before_join t =
        wbjGet q.where_before_join t ++ wbjGet s.where_before_join t) := by
  rcases hs : s.where_before_join with _ | w
  · refine ⟨{ q with
        group_by := listify s.group_by
        extra_field := listify s.extra_field
        order_by := []
        whereCl := []
        limit := none }, ?_, rfl, rfl, rfl, rfl, rfl, ?_⟩
    · simp [rollup_query, hs, set_group_by, set_extra_field, set_order_by, set_where,
        set_limit, is_update_safe, hexec]
      rfl
    · intro t
      simp [wbjGet]
  · rw [hs] at hw
    cases hpt : pyTruthyWbj q.where_before_join with
    | false =>
      refine ⟨{ q with
          where_before_join := some w
          group_by := listify s.group_by
          extra_field := listify s.extra_field
          order_by := []
          whereCl := []
          limit := none }, ?_, rfl, rfl, rfl, rfl, rfl, ?_⟩
      · simp [rollup_query, hs, hpt, set_where_before_join, set_group_by, set_extra_field,
          set_order_by, set_where, set_limit, is_update_safe, hexec]
        rfl
      · intro t
        rw [wbjGet_falsy q.where_before_join t hpt]
        simp
    | true =>
      obtain ⟨l, hl⟩ : ∃ l, q.where_before_join = some l := by
        rcases hq : q.where_before_join with _ | l
        · rw [hq] at hpt
          simp [pyTruthyWbj] at hpt
        · exact ⟨l, rfl⟩
      refine ⟨{ q with
          where_before_join := some (mergeWbjFold l w)
          group_by := listify s.group_by
          extra_field := listify s.extra_field
          order_by := []
          whereCl := []
          limit := none }, ?_, rfl, rfl, rfl, rfl, rfl, ?_⟩
      · have hpt2 : pyTruthyWbj (some l) = true := by
          rw [← hl]
          exact hpt
        simp [rollup_query, hs, hpt2, hl, set_group_by, set_extra_field,
          set_order_by, set_where, set_limit, is_update_safe, hexec]
        rfl
      · intro t
        rw [hl]
        simpa [wbjGet] using mergeWbjFold_get w l (by simpa using hw) t

/-- Witness for C4 on `witQ`/`witS`: the rollup's `t` filters are appended
to the caller's, `u` is added, grouping/aggregates are the rollup's own and
ordering, row filters and the limit are gone. -/
theorem rollup_query_spec_witness :
    (witQ.is_executing_underscore = false ∧
      ((witS.where_before_join.getD []).map Prod.fst).Nodup) ∧
    (∃ rq, rollup_query witS witQ = .ok rq ∧
      rq.group_by = listify witS.group_by ∧
      rq.extra_field = listify witS.extra_field ∧
      rq.order_by = [] ∧
      rq.whereCl = [] ∧
      rq.limit = none ∧
      (∀ t, wbjGet rq.where_before_join t =
        wbjGet witQ.where_before_join t ++ wbjGet witS.where_before_join t)) :=
  ⟨⟨rfl, by decide⟩, rollup_query_spec witQ witS rfl (by decide)⟩

/-- Generic invariant for the join loop: if every step either keeps the
accumulator or appends a duplicate-free batch of names that are new to the
prepped set (and lands them in the grown prepped set), then the whole fold
keeps the emission list duplicate-free, keeps it inside the prepped set,
grows the prepped set monotonically, and only emits names that were in the
initial emission list or outside the initial prepped set. -/
theorem foldl_visit_invariant
    (f : (List String × List String) → String → (List String × List String))
    (hf : ∀ acc t, f acc t = acc ∨
      ∃ p2 e2, f acc t = (p2, acc.2 ++ e2) ∧ e2.Nodup ∧
        (∀ x ∈ e2, x ∈ p2 ∧ x ∉ acc.1) ∧ (∀ x ∈ acc.1, x ∈ p2)) :
    ∀ (ts : List String) (acc : List String × List String),
      acc.2.Nodup → (∀ x ∈ acc.2, x ∈ acc.1) →
      ((ts.foldl f acc).2.Nodup ∧
       (∀ x ∈ (ts.foldl f acc).2, x ∈ (ts.foldl f acc).1) ∧
       (∀ x ∈ acc.1, x ∈ (ts.foldl f acc).1) ∧
       (∀ x ∈ (ts.foldl f acc).2, x ∈ acc.2 ∨ x ∉ acc.1)) := by
  intro ts
  induction ts with
  | nil =>
    intro acc h1 h2
    exact ⟨h1, h2, fun x hx => hx, fun x hx => Or.inl hx⟩
  | cons t ts iht =>
    intro acc h1 h2
    rw [List.foldl_cons]
    rcases hf acc t with hskip | ⟨p2, e2, heq, hnd2, hmem2, hmono2⟩
    · rw [hskip]
      exact iht acc h1 h2
    · rw [heq]
      have h1n : (acc.2 ++ e2).Nodup := by
        refine List.Nodup.append h1 hnd2 ?_
        intro x hx1 hx2
        exact (hmem2 x hx2).2 (h2 x hx1)
      have h2n : ∀ x ∈ acc.2 ++ e2, x ∈ p2 := by
        intro x hx
        rcases List.mem_append.mp hx with h | h
        · exact hmono2 x (h2 x h)
        · exact (hmem2 x h).1
      obtain ⟨q1, q2, q3, q4⟩ := iht (p2, acc.2 ++ e2) h1n h2n
      refine ⟨q1, q2, fun x hx => q3 x (hmono2 x hx), ?_⟩
      intro x hx
      rcases q4 x hx with hin | hnotin
      · rcases List.mem_append.mp hin with h | h
        · exact Or.inl h
        · exact Or.inr (hmem2 x h).2
      · exact Or.inr (fun hmem => hnotin (hmono2 x hmem))

/-- The join walk of one model: the emission trace is duplicate-free, all
emitted names land in the final prepped set, the prepped set grows
monotonically, and nothing already prepped is emitted again. -/
theorem model_sql_dict_joins_invariant (app : JApp) :
    ∀ (fuel : Nat) (prepped : List String) (m : JModel), m.name ∉ prepped →
      ((model_sql_dict_joins app fuel prepped m).2.Nodup ∧
       (∀ x ∈ (model_sql_dict_joins app fuel prepped m).2,
          x ∈ (model_sql_dict_joins app fuel prepped m).1) ∧
       (∀ x ∈ prepped, x ∈ (model_sql_dict_joins app fuel prepped m).1) ∧
       (∀ x ∈ (model_sql_dict_joins app fuel prepped m).2, x ∉ prepped)) := by
  intro fuel
  induction fuel with
  | zero =>
    intro prepped m hm
    exact ⟨by simp [model_sql_dict_joins], by simp [model_sql_dict_joins],
      fun x hx => by simpa [model_sql_dict_joins] using hx,
      by simp [model_sql_dict_joins]⟩
  | succ fuel ih =>
    intro prepped m hm
    have hrfl : model_sql_dict_joins app (fuel + 1) prepped m =
        m.relTargets.foldl
          (fun acc t =>
            match findJModel app t with
            | none => acc
            | some jm =>
              if jm.name ∈ acc.1 ∨ t ∈ m.dontLinkTo ∨ m.name ∈ jm.dontLinkTo then acc
              else ((model_sql_dict_joins app fuel acc.1 jm).1,
                    acc.2 ++ (model_sql_dict_joins app fuel acc.1 jm).2))
          (m.name :: prepped, [m.name]) := rfl
    have hf : ∀ (acc : List String × List String) (t : String),
        (fun acc t =>
            match findJModel app t with
            | none => acc
            | some jm =>
              if jm.name ∈ acc.1 ∨ t ∈ m.dontLinkTo ∨ m.name ∈ jm.dontLinkTo then acc
              else ((model_sql_dict_joins app fuel acc.1 jm).1,
                    acc.2 ++ (model_sql_dict_joins app fuel acc.1 jm).2)) acc t = acc ∨
        ∃ p2 e2, (fun acc t =>
            match findJModel app t with
            | none => acc
            | some jm =>
              if jm.name ∈ acc.1 ∨ t ∈ m.dontLinkTo ∨ m.name ∈ jm.dontLinkTo then acc
              else ((model_sql_dict_joins app fuel acc.1 jm).1,
                    acc.2 ++ (model_sql_dict_joins app fuel acc.1 jm).2)) acc t
            = (p2, acc.2 ++ e2) ∧ e2.Nodup ∧
          (∀ x ∈ e2, x ∈ p2 ∧ x ∉ acc.1) ∧ (∀ x ∈ acc.1, x ∈ p2) := by
      intro acc t
      cases hfm : findJModel app t with
      | none => exact Or.inl (by simp [hfm])
      | some jm =>
        by_cases hskip : jm.name ∈ acc.1 ∨ t ∈ m.dontLinkTo ∨ m.name ∈ jm.dontLinkTo
        · exact Or.inl (by simp [hfm, hskip])
        · have hjm : jm.name ∉ acc.1 := fun hmem => hskip (Or.inl hmem)
          obtain ⟨i1, i2, i3, i4⟩ := ih acc.1 jm hjm
          exact Or.inr ⟨(model_sql_dict_joins app fuel acc.1 jm).1,
            (model_sql_dict_joins app fuel acc.1 jm).2,
            by simp [hfm, hskip], i1, fun x hx => ⟨i2 x hx, i4 x hx⟩, i3⟩
    obtain ⟨q1, q2, q3, q4⟩ :=
      foldl_visit_invariant _ hf m.relTargets (m.name :: prepped, [m.name])
        (by simp) (by simp)
    rw [hrfl]
    refine ⟨q1, q2, fun x hx => q3 x (List.mem_cons_of_mem _ hx), ?_⟩
    intro x hx
    rcases q4 x hx with hin | hnotin
    · have : x = m.name := by simpa using hin
      rw [this]
      exact hm
    · exact fun hp => hnotin (List.mem_cons_of_mem _ hp)

/-- C5: within a single compile pass of a dataset group
(`ExporterApp._sql_dict`), every model's fragment is emitted at most once:
the pass resets the prepped set, each model adds itself on emission, and
the join step skips already-prepped or mutually suppressed targets, so the
emission trace has no duplicates. -/
theorem app_join_pass_no_duplicates (app : JApp) :
    (app_sql_dict_joins app).Nodup := by
  unfold app_sql_dict_joins
  rcases hp : app.primaryModel with _ | p
  · simp
  · rcases hfm : findJModel app p with _ | m
    · simp [hfm]
    · simp only [hfm]
      exact (model_sql_dict_joins_invariant app (app.models.length + 1) [] m (by simp)).1

/-- `takeTok` on a quote-free, newline-free token followed by the closing
quote. -/
theorem takeTok_quote_free (t : List Char) (r : List Char) (ht : qc ∉ t) (hn : nlc ∉ t) :
    takeTok (t ++ qc :: r) = some (t, r) := by
  induction t with
  | nil => simp [takeTok]
  | cons a t ih =>
    have ha : a ≠ qc := fun h => ht (by simp [h])
    have ha2 : a ≠ nlc := fun h => hn (by simp [h])
    have ht2 : qc ∉ t := fun h => ht (by simp [h])
    have hn2 : nlc ∉ t := fun h => hn (by simp [h])
    simp [takeTok, ha, ha2, ih ht2 hn2]

/-- `takeTok` finds nothing in a quote-free string. -/
theorem takeTok_none (l : List Char) (hl : qc ∉ l) : takeTok l = none := by
  induction l with
  | nil => rfl
  | cons c l ih =>
    have hc : c ≠ qc := fun h => hl (by simp [h])
    have hl2 : qc ∉ l := fun h => hl (by simp [h])
    by_cases hn : c = nlc
    · simp [takeTok, hc, hn, (by decide : ¬(nlc = qc))]
    · simp [takeTok, hc, hn, ih hl2]

/-- The rest returned by `takeTok` is strictly shorter. -/
theorem takeTok_length (l : List Char) :
    ∀ t r, takeTok l = some (t, r) → r.length < l.length := by
  induction l with
  | nil => intro t r h; simp [takeTok] at h
  | cons c l ih =>
    intro t r h
    by_cases hc : c = qc
    · simp [takeTok, hc] at h
      rw [← h.2]
      simp
    · by_cases hn : c = nlc
      · simp [takeTok, hc, hn, (by decide : ¬(nlc = qc))] at h
      · simp only [takeTok, hc, hn, if_false] at h
        rcases htt : takeTok l with _ | ⟨t0, r0⟩
        · rw [htt] at h; simp at h
        · rw [htt] at h
          simp at h
          have := ih t0 r0 htt
          have hr : r = r0 := h.2.symm
          rw [hr]
          simp
          omega

/-- `findTokensGo` does not depend on the fuel once it covers the input. -/
theorem findTokensGo_fuel (f1 : Nat) :
    ∀ (f2 : Nat) (s : List Char), s.length ≤ f1 → s.length ≤ f2 →
      findTokensGo f1 s = findTokensGo f2 s := by
  induction f1 with
  | zero =>
    intro f2 s h1 _
    have : s = [] := List.length_eq_zero.mp (Nat.le_zero.mp h1)
    subst this
    cases f2 <;> rfl
  | succ f1 ih =>
    intro f2 s h1 h2
    rcases s with _ | ⟨c, rest⟩
    · cases f2 <;> rfl
    · rcases f2 with _ | f2
      · simp at h2
      · simp only [findTokensGo]
        by_cases hc : c = qc
        · simp only [hc, if_true]
          rcases htt : takeTok rest with _ | ⟨t, r⟩
          · exact ih f2 rest (by simp only [List.length_cons] at h1; omega)
              (by simp only [List.length_cons] at h2; omega)
          · have hr := takeTok_length rest t r htt
            have hr1 : r.length ≤ f1 := by
              simp at h1
              omega
            have hr2 : r.length ≤ f2 := by
              simp at h2
              omega
            simp [ih f2 r hr1 hr2]
        · simp only [hc, if_false]
          exact ih f2 rest (by simpa using Nat.le_of_succ_le_succ (by simpa using h1))
            (by simpa using Nat.le_of_succ_le_succ (by simpa using h2))

/-- A quote-free part of the formula contributes no tokens. -/
theorem findTokens_skip (u : List Char) (rest : List Char) (hu : qc ∉ u) :
    findTokens (u ++ rest) = findTokens rest := by
  induction u with
  | nil => simp [findTokens]
  | cons c u ih =>
    have hc : c ≠ qc := fun h => hu (by simp [h])
    have hu2 : qc ∉ u := fun h => hu (by simp [h])
    have : findTokens (c :: (u ++ rest)) = findTokensGo (u ++ rest).length (u ++ rest) := by
      simp only [findTokens, List.length_cons, findTokensGo, hc, if_false]
    rw [List.cons_append, this]
    exact ih hu2

/-- A quoted token at the front is matched, and scanning resumes after it. -/
theorem findTokens_tok (t : List Char) (rest : List Char) (ht : qc ∉ t) (hn : nlc ∉ t) :
    findTokens (qc :: (t ++ qc :: rest)) = t :: findTokens rest := by
  have h1 : findTokens (qc :: (t ++ qc :: rest)) =
      t :: findTokensGo (t ++ qc :: rest).length rest := by
    simp [findTokens, findTokensGo, takeTok_quote_free t rest ht hn]
  rw [h1, findTokensGo_fuel (t ++ qc :: rest).length rest.length rest
    (by simp only [List.length_append, List.length_cons]; omega) (Nat.le_refl _)]
  rfl

/-- A quote-free string has no tokens at all. -/
theorem findTokens_no_qc (s : List Char) (hs : qc ∉ s) : findTokens s = [] := by
  have := findTokens_skip s [] hs
  simpa using this

/-- The tokens of a rendered formula are exactly its quoted segments. -/
theorem findTokens_render (parts : List (List Char × List Char × List Char)) (tail : List Char)
    (hqf : ∀ p ∈ parts, qc ∉ p.1 ∧ qc ∉ p.2.1) (hnl : ∀ p ∈ parts, nlc ∉ p.2.1)
    (htail : qc ∉ tail) :
    findTokens (renderParts parts tail) = parts.map (fun p => p.2.1) := by
  induction parts with
  | nil => simpa [renderParts] using findTokens_no_qc tail htail
  | cons p rest ih =>
    rcases p with ⟨u, t, c⟩
    obtain ⟨hu, ht⟩ := hqf (u, t, c) (List.mem_cons_self _ _)
    have hnt : nlc ∉ t := hnl (u, t, c) (List.mem_cons_self _ _)
    rw [show renderParts ((u, t, c) :: rest) tail
        = u ++ (qc :: (t ++ qc :: renderParts rest tail)) from rfl]
    rw [findTokens_skip u _ hu, findTokens_tok t _ ht hnt,
      ih (fun q hq => hqf q (List.mem_cons_of_mem _ hq))
        (fun q hq => hnl q (List.mem_cons_of_mem _ hq))]
    rfl

/-- `pyReplaceGo` does not depend on the fuel once it covers the input. -/
theorem pyReplaceGo_fuel (pat rep : List Char) (f1 : Nat) :
    ∀ (f2 : Nat) (s : List Char), s.length ≤ f1 → s.length ≤ f2 →
      pyReplaceGo pat rep f1 s = pyReplaceGo pat rep f2 s := by
  induction f1 with
  | zero =>
    intro f2 s h1 _
    have hs : s = [] := List.length_eq_zero.mp (Nat.le_zero.mp h1)
    subst hs
    cases f2 <;> rfl
  | succ f1 ih =>
    intro f2 s h1 h2
    rcases s with _ | ⟨c, rest⟩
    · cases f2 <;> rfl
    · rcases f2 with _ | f2
      · simp at h2
      · simp only [pyReplaceGo]
        by_cases hcond : pat ≠ [] ∧ pat.isPrefixOf (c :: rest) = true
        · rw [if_pos hcond, if_pos hcond]
          have hp : 1 ≤ pat.length := by
            rcases pat with _ | ⟨a, p⟩
            · exact absurd rfl hcond.1
            · simp
          congr 1
          apply ih
          · simp only [List.length_drop, List.length_cons]
            simp only [List.length_cons] at h1
            omega
          · simp only [List.length_drop, List.length_cons]
            simp only [List.length_cons] at h2
            omega
        · rw [if_neg hcond, if_neg hcond]
          congr 1
          apply ih
          · simp only [List.length_cons] at h1
            omega
          · simp only [List.length_cons] at h2
            omega

/-- A list is a prefix of itself followed by anything. -/
theorem isPrefixOf_append_self (l r : List Char) : l.isPrefixOf (l ++ r) = true := by
  induction l with
  | nil => simp [List.isPrefixOf]
  | cons a l ih => simp [List.isPrefixOf, ih]

/-- Different heads mean no prefix. -/
theorem isPrefixOf_head_ne (a c : Char) (p s : List Char) (h : a ≠ c) :
    (a :: p).isPrefixOf (c :: s) = false := by
  simp [List.isPrefixOf, h]

/-- One scan step of `pyReplace` over a non-matching position. -/
theorem pyReplace_cons_neg (c : Char) (s pat rep : List Char)
    (hc : pat.isPrefixOf (c :: s) = false) :
    pyReplace (c :: s) pat rep = c :: pyReplace s pat rep := by
  simp only [pyReplace, List.length_cons, pyReplaceGo]
  rw [if_neg (fun hand => by simp [hc] at hand)]

/-- `pyReplace` replaces an aligned occurrence and resumes after it. -/
theorem pyReplace_aligned (pat r rep : List Char) (hp : pat ≠ []) :
    pyReplace (pat ++ r) pat rep = rep ++ pyReplace r pat rep := by
  rcases pat with _ | ⟨a, p⟩
  · exact absurd rfl hp
  · show pyReplaceGo (a :: p) rep ((a :: p) ++ r).length ((a :: p) ++ r) = _
    rw [show (a :: p) ++ r = a :: (p ++ r) from rfl,
      show (a :: (p ++ r)).length = (p ++ r).length + 1 from rfl]
    simp only [pyReplaceGo]
    rw [if_pos ⟨List.cons_ne_nil a p, isPrefixOf_append_self (a :: p) r⟩]
    congr 1
    rw [show List.drop (a :: p).length (a :: (p ++ r)) = r from by
      simp only [List.length_cons, List.drop_succ_cons]
      exact List.drop_left p r]
    exact pyReplaceGo_fuel (a :: p) rep (p ++ r).length r.length r
      (by simp only [List.length_append]; omega) (Nat.le_refl _)

/-- `pyReplace` walks through quote-free text when the pattern starts with
a quote. -/
theorem pyReplace_skip (u r p rep : List Char) (hu : qc ∉ u) :
    pyReplace (u ++ r) (qc :: p) rep = u ++ pyReplace r (qc :: p) rep := by
  induction u with
  | nil => simp
  | cons c u ih =>
    have hc : c ≠ qc := fun h => hu (by simp [h])
    rw [List.cons_append, pyReplace_cons_neg c (u ++ r) (qc :: p) rep
      (isPrefixOf_head_ne qc c p (u ++ r) (Ne.symm hc))]
    rw [ih (fun h => hu (by simp [h]))]
    rfl

/-- A quoted pattern for token `t1` does not match at the opening quote of
a different token `t2` (both quote-free). -/
theorem not_isPrefixOf_tok (t1 : List Char) :
    ∀ (t2 z : List Char), qc ∉ t1 → qc ∉ t2 → t1 ≠ t2 →
      (t1 ++ [qc]).isPrefixOf (t2 ++ qc :: z) = false := by
  induction t1 with
  | nil =>
    intro t2 z _ h2 hne
    rcases t2 with _ | ⟨b, t2i⟩
    · exact absurd rfl hne
    · have hb : b ≠ qc := fun h => h2 (by simp [h])
      simpa using isPrefixOf_head_ne qc b [] (t2i ++ qc :: z) (Ne.symm hb)
  | cons a t1i ih =>
    intro t2 z h1 h2 hne
    have ha : a ≠ qc := fun h => h1 (by simp [h])
    rcases t2 with _ | ⟨b, t2i⟩
    · simpa using isPrefixOf_head_ne a qc (t1i ++ [qc]) z ha
    · by_cases hab : a = b
      · subst hab
        have hne2 : t1i ≠ t2i := fun h => hne (by rw [h])
        have hih := ih t2i z (fun h => h1 (by simp [h])) (fun h => h2 (by simp [h])) hne2
        simpa [List.isPrefixOf] using hih
      · simpa using isPrefixOf_head_ne a b (t1i ++ [qc]) (t2i ++ qc :: z) hab

/-- A quoted pattern does not match inside quote-free text (there is no
closing quote left). -/
theorem not_isPrefixOf_no_qc (t1 : List Char) :
    ∀ z : List Char, qc ∉ z → (t1 ++ [qc]).isPrefixOf z = false := by
  induction t1 with
  | nil =>
    intro z hz
    rcases z with _ | ⟨c, zi⟩
    · rfl
    · have hc : c ≠ qc := fun h => hz (by simp [h])
      simpa using isPrefixOf_head_ne qc c [] zi (Ne.symm hc)
  | cons a t1i ih =>
    intro z hz
    rcases z with _ | ⟨c, zi⟩
    · rfl
    · by_cases hac : a = c
      · subst hac
        have hih := ih zi (fun h => hz (by simp [h]))
        simpa [List.isPrefixOf] using hih
      · simpa using isPrefixOf_head_ne a c (t1i ++ [qc]) zi hac

/-- A token pattern that names no remaining token and no inner unquoted
segment does not occur in the rendered rest of the formula; `pyReplace`
leaves it unchanged. -/
theorem pyReplace_render_no_tok (t1 rep : List Char) (h1 : qc ∉ t1) :
    ∀ (parts : List (List Char × List Char × List Char)) (tail : List Char),
      (∀ p ∈ parts, qc ∉ p.1 ∧ qc ∉ p.2.1) → qc ∉ tail →
      (∀ p ∈ parts, p.2.1 ≠ t1) →
      (∀ p ∈ parts.drop 1, p.1 ≠ t1) →
      pyReplace (renderParts parts tail) (qc :: (t1 ++ [qc])) rep = renderParts parts tail := by
  intro parts
  induction parts with
  | nil =>
    intro tail _ htail _ _
    have hnil : pyReplace [] (qc :: (t1 ++ [qc])) rep = [] := rfl
    simpa [renderParts, hnil] using pyReplace_skip tail [] (t1 ++ [qc]) rep htail
  | cons p rest ih =>
    intro tail hqf htail hto hui
    rcases p with ⟨u, t, c⟩
    obtain ⟨hu, ht⟩ := hqf (u, t, c) (List.mem_cons_self _ _)
    have htne : t ≠ t1 := hto (u, t, c) (List.mem_cons_self _ _)
    rw [show renderParts ((u, t, c) :: rest) tail
        = u ++ (qc :: (t ++ qc :: renderParts rest tail)) from rfl]
    rw [pyReplace_skip u _ _ rep hu]
    congr 1
    have hpre1 : (qc :: (t1 ++ [qc])).isPrefixOf
        (qc :: (t ++ qc :: renderParts rest tail)) = false := by
      have := not_isPrefixOf_tok t1 t (renderParts rest tail) h1 ht (Ne.symm htne)
      simpa [List.isPrefixOf] using this
    rw [pyReplace_cons_neg qc _ _ rep hpre1]
    congr 1
    rw [pyReplace_skip t (qc :: renderParts rest tail) (t1 ++ [qc]) rep ht]
    congr 1
    have hpre2 : (qc :: (t1 ++ [qc])).isPrefixOf (qc :: renderParts rest tail) = false := by
      rcases rest with _ | ⟨⟨u2, t2, c2⟩, resti⟩
      · have := not_isPrefixOf_no_qc t1 tail htail
        simpa [List.isPrefixOf, renderParts] using this
      · have hu2ne : u2 ≠ t1 := hui (u2, t2, c2) (by simp)
        have hu2qf : qc ∉ u2 := (hqf (u2, t2, c2) (by simp)).1
        have := not_isPrefixOf_tok t1 u2 (t2 ++ qc :: renderParts resti tail)
          h1 hu2qf (Ne.symm hu2ne)
        simpa [List.isPrefixOf, renderParts] using this
    rw [pyReplace_cons_neg qc _ _ rep hpre2]
    congr 1
    exact ih tail (fun q hq => hqf q (List.mem_cons_of_mem _ hq)) htail
      (fun q hq => hto q (List.mem_cons_of_mem _ hq))
      (fun q hq => hui q (List.mem_of_mem_drop hq))

/-- Binding an `ok` value in the `Except` monad just applies the
continuation. -/
theorem except_bind_ok {α β : Type} (a : α) (k : α → Except PyErr β) :
    (Except.ok a >>= k : Except PyErr β) = k a := rfl

/-- The replacement loop of `_resolve_formula`, run over the tokens of a
well-formed rendered formula, replaces exactly the quoted segments: the
accumulated quote-free prefix `P` grows by one unquoted segment and one
resolved column per step. -/
theorem resolve_formula_fold (e : Exporter) (ql : Option String) :
    ∀ (parts : List (List Char × List Char × List Char)) (P tail : List Char),
      qc ∉ P → qc ∉ tail →
      (∀ p ∈ parts, qc ∉ p.1 ∧ qc ∉ p.2.1 ∧ qc ∉ p.2.2) →
      (parts.map (fun p => p.2.1)).Nodup →
      (∀ p ∈ parts.drop 1, ∀ p2 ∈ parts, p.1 ≠ p2.2.1) →
      (∀ p ∈ parts, ∃ fo, find_field e none none (some (String.mk p.2.1)) = .ok fo ∧
          (fo.column ql).data = p.2.2) →
      ((parts.map (fun p => p.2.1)).foldlM
        (fun (acc : List Char) t => do
          let fo ← find_field e none none (some (String.mk t))
          pure (pyReplace acc (qc :: (t ++ [qc])) (fo.column ql).data))
        (P ++ renderParts parts tail) : Except PyErr (List Char))
        = .ok (P ++ substParts parts tail) := by
  intro parts
  induction parts with
  | nil =>
    intro P tail _ _ _ _ _ _
    rfl
  | cons p rest ih =>
    intro P tail hP htail hqf hnd hui hres
    rcases p with ⟨u, t, c⟩
    obtain ⟨fo, hfind, hcol⟩ := hres (u, t, c) (List.mem_cons_self _ _)
    obtain ⟨hqu, hqt, hqc2⟩ := hqf (u, t, c) (List.mem_cons_self _ _)
    have hndt : t ∉ rest.map (fun p => p.2.1) := by
      simp only [List.map_cons, List.nodup_cons] at hnd
      exact hnd.1
    have hndr : (rest.map (fun p => p.2.1)).Nodup := by
      simp only [List.map_cons, List.nodup_cons] at hnd
      exact hnd.2
    have hrep : pyReplace (P ++ renderParts ((u, t, c) :: rest) tail) (qc :: (t ++ [qc])) c
        = (P ++ u ++ c) ++ renderParts rest tail := by
      rw [show renderParts ((u, t, c) :: rest) tail
          = u ++ (qc :: (t ++ qc :: renderParts rest tail)) from rfl]
      rw [show P ++ (u ++ (qc :: (t ++ qc :: renderParts rest tail)))
          = (P ++ u) ++ (qc :: (t ++ qc :: renderParts rest tail))
          from (List.append_assoc _ _ _).symm]
      rw [pyReplace_skip (P ++ u) _ _ c (by
        intro h
        rcases List.mem_append.mp h with h | h
        · exact hP h
        · exact hqu h)]
      rw [show (qc :: (t ++ qc :: renderParts rest tail))
          = (qc :: (t ++ [qc])) ++ renderParts rest tail from by simp]
      rw [pyReplace_aligned (qc :: (t ++ [qc])) (renderParts rest tail) c (by simp)]
      rw [pyReplace_render_no_tok t c hqt rest tail
        (fun q hq => ⟨(hqf q (List.mem_cons_of_mem _ hq)).1,
          (hqf q (List.mem_cons_of_mem _ hq)).2.1⟩)
        htail
        (fun q hq heq => hndt (heq ▸ List.mem_map_of_mem (fun p => p.2.1) hq))
        (fun q hq => hui q (List.mem_of_mem_drop hq) (u, t, c) (List.mem_cons_self _ _))]
      simp [List.append_assoc]
    have hbody : ((do
        let fo2 ← find_field e none none (some (String.mk t))
        pure (pyReplace (P ++ renderParts ((u, t, c) :: rest) tail) (qc :: (t ++ [qc]))
          (fo2.column ql).data)) : Except PyErr (List Char))
        = .ok ((P ++ u ++ c) ++ renderParts rest tail) := by
      rw [hfind, except_bind_ok]
      rw [hcol, hrep]
      rfl
    rw [List.map_cons, List.foldlM_cons, hbody, except_bind_ok]
    rw [ih (P ++ u ++ c) tail
      (by
        intro h
        rcases List.mem_append.mp h with h | h
        · rcases List.mem_append.mp h with h | h
          · exact hP h
          · exact hqu h
        · exact hqc2 h)
      htail
      (fun q hq => hqf q (List.mem_cons_of_mem _ hq))
      hndr
      (fun q hq q2 hq2 => hui q (List.mem_of_mem_drop hq) q2 (List.mem_cons_of_mem _ hq2))
      (fun q hq => hres q (List.mem_cons_of_mem _ hq))]
    show Except.ok ((P ++ u ++ c) ++ substParts rest tail)
      = Except.ok (P ++ substParts ((u, t, c) :: rest) tail)
    rw [show substParts ((u, t, c) :: rest) tail = u ++ c ++ substParts rest tail from rfl]
    simp [List.append_assoc]

/-- C8 (amended): formula resolution is substitution-exact on well-formed
formulas — each double-quoted token resolved via `find_field` at the given
layer and replaced in place, left to right, unquoted text untouched —
provided quotes delimit tokens unambiguously: token names, unquoted
segments and resolved columns are free of the double-quote character,
token names contain no newline (the token regex `".*?"` cannot match one),
token names are pairwise distinct, and no unquoted segment lying between
two tokens equals a token name.  A `None` or empty formula resolves to
`None`.  Distinctness is forced: with a duplicated token name whose
resolved column spells another token's name, the second pass's global
replace consumes quotes across segment boundaries (see the second
counterexample input); the inner-segment condition is forced by the first. -/
theorem resolve_formula_substitution_exact (e : Exporter) (ql : Option String)
    (hql : ql = none ∨ ql = some "base" ∨ ql = some "middle")
    (parts : List (List Char × List Char × List Char)) (tail : List Char)
    (hqf : ∀ p ∈ parts, qc ∉ p.1 ∧ qc ∉ p.2.1 ∧ qc ∉ p.2.2)
    (hnl : ∀ p ∈ parts, nlc ∉ p.2.1)
    (htail : qc ∉ tail)
    (hnd : (parts.map (fun p => p.2.1)).Nodup)
    (hui : ∀ p ∈ parts.drop 1, ∀ p2 ∈ parts, p.1 ≠ p2.2.1)
    (hres : ∀ p ∈ parts, ∃ fo, find_field e none none (some (String.mk p.2.1)) = .ok fo ∧
        (fo.column ql).data = p.2.2)
    (hne : renderParts parts tail ≠ []) :
    resolve_formula e (some (String.mk (renderParts parts tail))) ql
      = .ok (some (String.mk (substParts parts tail))) ∧
    resolve_formula e none ql = .ok none ∧
    resolve_formula e (some "") ql = .ok none := by
  refine ⟨?_, rfl, rfl⟩
  have h1 : pyTruthyS (some (String.mk (renderParts parts tail))) = true := by
    have hmk : String.mk (renderParts parts tail) ≠ "" := by
      intro h
      exact hne (by simpa using congrArg String.data h)
    simp [pyTruthyS, hmk]
  have hfold := resolve_formula_fold e ql parts [] tail (by simp) htail hqf hnd hui hres
  simp only [List.nil_append] at hfold
  rcases hql with h | h | h <;> subst h <;>
    (simp only [resolve_formula, h1, Bool.not_true, Bool.false_eq_true, if_false]
     rw [if_neg (by decide)]
     simp only [Option.getD_some]
     rw [findTokens_render parts tail (fun p hp => ⟨(hqf p hp).1, (hqf p hp).2.1⟩) hnl htail]
     rw [hfold, except_bind_ok]
     rfl)

/-- C8 counterexample, refuting the claim at two concrete inputs.
First, on `"b" "a"b"c"` (tokens `b`, `a`, `c`, with the unquoted text `b`
between the last two) the global `str.replace` of the first token also
matches across the segment boundary — closing quote of `a`, unquoted `b`,
opening quote of `c` — so the code returns `b "abc"` instead of the
in-place result `b abc`: an unquoted segment equal to a token name breaks
exactness.  Second, on `"a" "x" "b""a""c"` over `dupExporter` (token `a`
occurs twice and resolves to the column text `x`) the first pass rewrites
both `"a"` occurrences to `x`; the second pass's global replace of `"x"`
then also matches the quote-`x`-quote span formed by the closing quote of
`b`, the freshly inserted column `x` and the opening quote of `c`, so the
code returns `x X "bXc"` instead of the in-place `x X BxC`: duplicated
token names break exactness even when no unquoted segment equals a token
name.  Both runs were reproduced in CPython. -/
theorem resolve_formula_counterexample :
    (resolve_formula formulaExporter (some "\"b\" \"a\"b\"c\"") none
        = .ok (some "b \"abc\"") ∧
      String.mk (renderParts cexParts []) = "\"b\" \"a\"b\"c\"" ∧
      String.mk (substParts cexParts []) = "b abc" ∧
      ("b \"abc\"" : String) ≠ "b abc") ∧
    (resolve_formula dupExporter (some "\"a\" \"x\" \"b\"\"a\"\"c\"") none
        = .ok (some "x X \"bXc\"") ∧
      String.mk (renderParts dupParts []) = "\"a\" \"x\" \"b\"\"a\"\"c\"" ∧
      String.mk (substParts dupParts []) = "x X BxC" ∧
      ("x X \"bXc\"" : String) ≠ "x X BxC") :=
  ⟨⟨rfl, rfl, rfl, by decide⟩, ⟨rfl, rfl, rfl, by decide⟩⟩

/-- Witness for C8 on `f("a")`: the token `a` resolves to the pseudofield
column `a` and the result is `f(a)`. -/
theorem resolve_formula_substitution_exact_witness :
    (qc ∉ ("f(" : String).data ∧ qc ∉ ("a" : String).data ∧ nlc ∉ ("a" : String).data ∧
      qc ∉ (")" : String).data ∧
      renderParts [(("f(" : String).data, ("a" : String).data, ("a" : String).data)]
        (")" : String).data ≠ []) ∧
    (resolve_formula formulaExporter
        (some (String.mk (renderParts [(("f(" : String).data, ("a" : String).data,
          ("a" : String).data)] (")" : String).data))) none
      = .ok (some (String.mk (substParts [(("f(" : String).data, ("a" : String).data,
          ("a" : String).data)] (")" : String).data))) ∧
     resolve_formula formulaExporter none none = .ok none ∧
     resolve_formula formulaExporter (some "") none = .ok none) :=
  ⟨⟨by decide, by decide, by decide, by decide, by decide⟩,
   resolve_formula_substitution_exact formulaExporter none (Or.inl rfl)
     [(("f(" : String).data, ("a" : String).data, ("a" : String).data)] (")" : String).data
     (by decide) (by decide) (by decide) (by decide) (by decide)
     (by
       intro p hp
       simp only [List.mem_singleton] at hp
       subst hp
       exact ⟨.pseudo ⟨"a"⟩, rfl, rfl⟩)
     (by decide)⟩
